import Mathlib

/-!
# stl2img: packaging an image and a 3D model into one file

A shallow embedding of `main.cpp`.  The program copies two input files to an
output file and appends a trailer made of the two base names, their lengths
(one byte each) and the size of the first file (four bytes, big-endian).

Conventions of the embedding:

* a `char` is a `Byte` (`Fin 256`), a `std::string` is a `List Byte`;
* `size_t` values are `Nat` (a string is far shorter than `2^64`, so the
  `size_t` arithmetic of `filename` never wraps), `std::streamoff` values are
  `Int`, with an explicit wrap where the source casts;
* a thrown exception, `exit` and a failed `assert` are explicit results;
* the text sent to `std::cerr` and `std::cout` is not part of the model;
* opening the output file empties it: an input stream on the same path then
  reads an empty file.
-/

namespace Stl2Img

/-! ## Strings -/

/-- One `char`, read as an unsigned 8-bit value. -/
abbrev Byte := Fin 256

/-- A `std::string`: a finite sequence of bytes. -/
abbrev Str := List Byte

/-- The path separator `'/'`. -/
def slash : Byte := 47

/-- The exceptions the modelled library calls can throw. -/
inductive Exn where
  | out_of_range
  deriving DecidableEq, Repr

/-- The call `std::string::find_last_of(c)`: the index of the last occurrence of `c`,
`none` standing for `std::string::npos`. -/
def find_last_of : Str → Byte → Option Nat
  | [], _ => none
  | x :: xs, c =>
    match find_last_of xs c with
    | some i => some (i + 1)
    | none => if x = c then some 0 else none

/-- The call `std::string::substr(pos)`: the characters from index `pos` to the end;
throws `std::out_of_range` when `pos > size()`. -/
def substr (s : Str) (pos : Nat) : Except Exn Str :=
  if pos > s.length then Except.error Exn.out_of_range else Except.ok (s.drop pos)

/-- The function `filename` (main.cpp, lines 9-31): the part of `path` after the last `'/'`
(the whole path when there is none), cut down to its last 255 bytes when it is
longer than that. -/
def filename (path : Str) : Except Exn Str :=
  let p := find_last_of path slash
  match (match p with
         | none => Except.ok path
         | some p => substr path (p + 1)) with
  | Except.error e => Except.error e
  | Except.ok file =>
    if file.length > 255 then
      substr file (file.length - 255)
    else
      Except.ok file

/-! ## Input streams -/

/-- The type `std::ios_base::seekdir`, the origin of a relative seek. -/
inductive seekdir where
  | beg
  | cur
  | end_
  deriving DecidableEq, Repr

/-- A `std::ifstream` opened on a regular file: the bytes of the file, the
read position of its buffer (a seek may put it past the end) and the three
state bits of the stream. -/
structure ifstream where
  content : List Byte
  pos : Nat
  eofbit : Bool
  failbit : Bool
  badbit : Bool
  deriving DecidableEq, Repr

/-- The call `good()`: no state bit is set. -/
def ifstream.good (s : ifstream) : Bool :=
  !s.eofbit && !s.failbit && !s.badbit

/-- A stream just opened with success on a file holding `bytes`. -/
def ifstream.opened (bytes : List Byte) : ifstream :=
  { content := bytes, pos := 0, eofbit := false, failbit := false, badbit := false }

/-- The call `tellg()`: the sentry sets `failbit` on a stream that is not good and the
call returns `pos_type(-1)`; otherwise it returns the current position. -/
def ifstream.tellg (s : ifstream) : Int × ifstream :=
  if s.good then ((s.pos : Int), s) else (-1, { s with failbit := true })

/-- The call `seekg(off, dir)`: clears `eofbit`, then, on a stream that is good, moves
the read position to `off` bytes from the origin `dir`; a target before the
start of the file fails and sets `failbit`. -/
def ifstream.seekg (s : ifstream) (off : Int) (dir : seekdir) : ifstream :=
  let s := { s with eofbit := false }
  if s.good then
    let base : Int :=
      match dir with
      | seekdir.beg => 0
      | seekdir.cur => (s.pos : Int)
      | seekdir.end_ => (s.content.length : Int)
    if base + off < 0 then { s with failbit := true }
    else { s with pos := (base + off).toNat }
  else { s with failbit := true }

/-- What is left to read from the stream buffer: the bytes from the read
position to the end of the file. -/
def ifstream.remaining (s : ifstream) : List Byte :=
  s.content.drop s.pos

/-! ## `stream_size` -/

/-- The exit status `EXIT_FAILURE`. -/
def EXIT_FAILURE : Nat := 1

/-- The constant `std::numeric_limits<uint32_t>::max()`. -/
def uint32_max : Nat := 4294967295

/-- The cast `static_cast<std::streamsize>`: conversion to a signed 64-bit integer. -/
def static_cast_streamsize (x : Int) : Int :=
  (x + 2 ^ 63) % 2 ^ 64 - 2 ^ 63

/-- The cast `static_cast<uint32_t>`: reduction modulo `2^32`. -/
def static_cast_uint32 (x : Int) : Nat :=
  (x % 2 ^ 32).toNat

/-- The function `stream_size` (main.cpp, lines 37-58).  `Except.error c` stands for
`exit(c)`; on return the result carries the value and the stream as the call
left it.  File offsets are below `2^63`, so `to - from` is computed exactly. -/
def stream_size (s : ifstream) : Except Nat (Nat × ifstream) :=
  let from_ := s.tellg.1
  let s := s.tellg.2
  let s := s.seekg 0 seekdir.end_
  let to_ := s.tellg.1
  let s := s.tellg.2
  let size := to_ - from_
  let s := s.seekg from_ seekdir.beg
  if size < static_cast_streamsize size then
    Except.error EXIT_FAILURE
  else if size > (uint32_max : Int) then
    Except.error EXIT_FAILURE
  else
    Except.ok (static_cast_uint32 size, s)

/-! ## Output streams -/

/-- A `std::ostream` writing to a sink: the bytes written so far, and whether
`failbit` is set (the stream is then no longer good and every later insertion
is skipped). -/
structure ostream where
  bytes : List Byte
  failbit : Bool
  deriving DecidableEq, Repr

/-- A `std::ofstream` just opened with success: the file is created or
emptied. -/
def ostream.opened : ostream :=
  { bytes := [], failbit := false }

/-- The insertion `out << sb` for a stream buffer `sb`: copies every remaining byte of `sb`
to the sink, and sets `failbit` when no byte was inserted. -/
def ostream.insert_streambuf (out : ostream) (sb : ifstream) : ostream × ifstream :=
  if out.failbit then (out, sb)
  else
    let chars := sb.remaining
    let sb := { sb with pos := sb.pos + chars.length }
    if chars.length = 0 then ({ out with failbit := true }, sb)
    else ({ out with bytes := out.bytes ++ chars }, sb)

/-- The insertion `out << s` for a `std::string` (field width 0). -/
def ostream.insert_string (out : ostream) (s : Str) : ostream :=
  if out.failbit then out else { out with bytes := out.bytes ++ s }

/-- The insertion `out << c` for an `unsigned char`. -/
def ostream.insert_uchar (out : ostream) (c : Byte) : ostream :=
  if out.failbit then out else { out with bytes := out.bytes ++ [c] }

/-- The call `out.write(p, n)`: the first `n` bytes of the array at `p`. -/
def ostream.write (out : ostream) (p : List Byte) (n : Nat) : ostream :=
  if out.failbit then out else { out with bytes := out.bytes ++ p.take n }

/-- The cast `static_cast<uint8_t>` of a `size_t`: reduction modulo `2^8`. -/
def static_cast_uint8 (n : Nat) : Byte :=
  ⟨n % 256, Nat.mod_lt n (by decide)⟩

/-- Conversion of an `int` in `0..255` (the result of `& 0xFF`) to `char`. -/
def to_char (n : Nat) : Byte :=
  ⟨n % 256, Nat.mod_lt n (by decide)⟩

/-- The array `be` filled by the loop of `writeBigEndian` (lines 65-68):
`be[i] = (n >> ((3-i)<<3)) & 0xFF` for `i = 0, 1, 2, 3`. -/
def be (n : Nat) : List Byte :=
  (List.range 4).map fun i => to_char ((n >>> ((3 - i) <<< 3)) &&& 0xFF)

/-- The function `writeBigEndian` (main.cpp, lines 63-70): the array `be` is filled, then
written with one call of `write`. -/
def writeBigEndian (out : ostream) (n : Nat) : ostream :=
  out.write (be n) 4

/-! ## `main` -/

/-- How a run of the program ends. -/
inductive Termination where
  | returned (code : Int)
  | exited (code : Nat)
  | aborted
  deriving DecidableEq, Repr

/-- The observable result of a run: how it ended, and the bytes of the output
file (`none` when the program never opened it). -/
structure Run where
  status : Termination
  output : Option (List Byte)
  deriving DecidableEq, Repr

/-- The second half of `main` (main.cpp, lines 120-135), run on the three
streams once they are open: the base names, the two assertions, the size of
the first stream, then the output file structure.  A failed `assert` and an
uncaught exception abort the program; `exit` leaves the output file as the
stream left it. -/
def main_body (png stl : ifstream) (stl2png : ostream) (png_file stl_file : Str) : Run :=
  match filename png_file with
  | Except.error _ => ⟨Termination.aborted, some stl2png.bytes⟩
  | Except.ok png_file =>
    match filename stl_file with
    | Except.error _ => ⟨Termination.aborted, some stl2png.bytes⟩
    | Except.ok stl_file =>
      if ¬ png_file.length < 256 then ⟨Termination.aborted, some stl2png.bytes⟩
      else if ¬ stl_file.length < 256 then ⟨Termination.aborted, some stl2png.bytes⟩
      else
        match stream_size png with
        | Except.error code => ⟨Termination.exited code, some stl2png.bytes⟩
        | Except.ok (png_size, png) =>
          let stl2png := (stl2png.insert_streambuf png).1
          let stl2png := (stl2png.insert_streambuf stl).1
          let stl2png := stl2png.insert_string png_file
          let stl2png := stl2png.insert_string stl_file
          let stl2png := stl2png.insert_uchar (static_cast_uint8 png_file.length)
          let stl2png := stl2png.insert_uchar (static_cast_uint8 stl_file.length)
          let stl2png := writeBigEndian stl2png png_size
          ⟨Termination.returned 0, some stl2png.bytes⟩

/-- The bytes that an input stream opened on `path` finds once the output file
`stl2png_file` has been opened (main.cpp, line 113): opening a `std::ofstream`
empties the file it names, so an input that is that very file has nothing left
to read; any other file keeps its bytes. -/
def truncated_by (stl2png_file path : Str) (bytes : List Byte) : List Byte :=
  if path = stl2png_file then [] else bytes

/-- The function `main` (main.cpp, lines 83-136): the check of the command line and the
opening of the three streams (lines 85-118), then `main_body`.  `argv` is the
argument vector, `fs` gives the bytes of each file that can be opened for
reading and `writable` tells which paths can be opened for writing.  The two
inputs are opened first and read later, after the output has been opened and
so emptied: an input named by the path of the output is read as an empty
file.  A file is identified by its path, and the bytes sent to the output
stream are taken to reach the file when `main` returns. -/
def main (argv : List Str) (fs : Str → Option (List Byte)) (writable : Str → Bool) : Run :=
  if argv.length < 1 then ⟨Termination.exited EXIT_FAILURE, none⟩
  else
    match argv with
    | [_, png_file, stl_file, stl2png_file] =>
      match fs png_file with
      | none => ⟨Termination.exited EXIT_FAILURE, none⟩
      | some a =>
        match fs stl_file with
        | none => ⟨Termination.exited EXIT_FAILURE, none⟩
        | some b =>
          if !writable stl2png_file then ⟨Termination.exited EXIT_FAILURE, none⟩
          else
            main_body (ifstream.opened (truncated_by stl2png_file png_file a))
              (ifstream.opened (truncated_by stl2png_file stl_file b))
              ostream.opened png_file stl_file
    | _ => ⟨Termination.exited EXIT_FAILURE, none⟩

/-! ## The layout and the reader of the specification -/

/-- The output layout as the specification writes it:
`a ++ b ++ na ++ nb ++ byte(len(na)) ++ byte(len(nb)) ++ be32(len(a))`. -/
def spec_layout (a b : List Byte) (na nb : Str) : List Byte :=
  a ++ b ++ na ++ nb ++ [static_cast_uint8 na.length] ++ [static_cast_uint8 nb.length]
    ++ be a.length

/-- The reader the specification describes (it is not part of main.cpp): from
the last six bytes it takes the two name lengths and the size of the first
payload, from the total length the size of the second payload, and it cuts the
output into the two payloads and the two names. -/
def spec_decode (out : List Byte) : Option (List Byte × List Byte × Str × Str) :=
  match out.drop (out.length - 6) with
  | [la, lb, b0, b1, b2, b3] =>
    let lenA := la.val
    let lenB := lb.val
    let sizeA := b0.val * 2 ^ 24 + b1.val * 2 ^ 16 + b2.val * 2 ^ 8 + b3.val
    if sizeA + lenA + lenB + 6 > out.length then none
    else
      let sizeB := out.length - 6 - lenA - lenB - sizeA
      some (out.take sizeA,
            (out.drop sizeA).take sizeB,
            (out.drop (sizeA + sizeB)).take lenA,
            (out.drop (sizeA + sizeB + lenA)).take lenB)
  | _ => none

/-! ## Lemmas on `find_last_of` and `substr` -/

theorem find_last_of_eq_none {s : Str} {c : Byte} (h : c ∉ s) :
    find_last_of s c = none := by
  induction s with
  | nil => rfl
  | cons x xs ih =>
    have hx : ¬ x = c := fun e => h (by simp [e])
    have hxs : c ∉ xs := fun m => h (List.mem_cons_of_mem _ m)
    simp [find_last_of, ih hxs, hx]

theorem find_last_of_append (pre name : Str) (c : Byte) (h : c ∉ name) :
    find_last_of (pre ++ c :: name) c = some pre.length := by
  induction pre with
  | nil => simp [find_last_of, find_last_of_eq_none h]
  | cons x xs ih => simp [find_last_of, ih]

/-- A string that contains `c` splits at the last occurrence of `c`. -/
theorem exists_last_split {s : Str} {c : Byte} (m : c ∈ s) :
    ∃ pre name, s = pre ++ c :: name ∧ c ∉ name := by
  induction s with
  | nil => simp at m
  | cons x xs ih =>
    by_cases hx : c ∈ xs
    · obtain ⟨pre, name, e, hn⟩ := ih hx
      exact ⟨x :: pre, name, by simp [e], hn⟩
    · rcases List.mem_cons.mp m with e | e
      · exact ⟨[], xs, by simp [e], hx⟩
      · exact absurd e hx

theorem substr_of_le {s : Str} {pos : Nat} (h : pos ≤ s.length) :
    substr s pos = Except.ok (s.drop pos) := by
  simp [substr, Nat.not_lt.mpr h]

/-- The base name of a path: the whole path when it has no separator, the
part after the last separator otherwise. -/
theorem exists_base (path : Str) :
    ∃ name, (slash ∉ path ∧ name = path) ∨
      (∃ pre, path = pre ++ [slash] ++ name ∧ slash ∉ name) := by
  by_cases m : slash ∈ path
  · obtain ⟨pre, name, e, hn⟩ := exists_last_split m
    exact ⟨name, Or.inr ⟨pre, by simp [e], hn⟩⟩
  · exact ⟨path, Or.inl ⟨m, rfl⟩⟩

/-- What `filename` computes, in terms of the base name of the path. -/
theorem filename_of_base {path name : Str}
    (h : (slash ∉ path ∧ name = path) ∨
      (∃ pre, path = pre ++ [slash] ++ name ∧ slash ∉ name)) :
    filename path =
      Except.ok (if name.length > 255 then name.drop (name.length - 255) else name) := by
  rcases h with ⟨hno, rfl⟩ | ⟨pre, rfl, hno⟩
  · simp only [filename, find_last_of_eq_none hno]
    split
    · rw [substr_of_le (Nat.sub_le _ _)]
    · rfl
  · have hle : pre.length + 1 ≤ (pre ++ [slash] ++ name).length := by simp
    have hd : (pre ++ [slash] ++ name).drop (pre.length + 1) = name :=
      List.drop_left' (by simp)
    have hf : find_last_of (pre ++ [slash] ++ name) slash = some pre.length := by
      rw [List.append_assoc]
      exact find_last_of_append pre name slash hno
    simp only [filename, hf, substr_of_le hle, hd]
    split
    · rw [substr_of_le (Nat.sub_le _ _)]
    · rfl

/-- The function `filename` always returns, and what it returns has at most 255 bytes. -/
theorem filename_total (path : Str) :
    ∃ name, filename path = Except.ok name ∧ name.length ≤ 255 := by
  obtain ⟨base, hb⟩ := exists_base path
  refine ⟨_, filename_of_base hb, ?_⟩
  split
  · simp only [List.length_drop]
    omega
  · omega

theorem static_cast_uint8_val {n : Nat} (h : n ≤ 255) :
    (static_cast_uint8 n).val = n := by
  simp only [static_cast_uint8]
  omega

/-- The body of `main` never ends in an abort, whatever the streams. -/
theorem main_body_status_ne_aborted (png stl : ifstream) (stl2png : ostream)
    (png_file stl_file : Str) :
    (main_body png stl stl2png png_file stl_file).status ≠ Termination.aborted := by
  obtain ⟨na, hna, hla⟩ := filename_total png_file
  obtain ⟨nb, hnb, hlb⟩ := filename_total stl_file
  have ha : na.length < 256 := by omega
  have hb : nb.length < 256 := by omega
  simp only [main_body, hna, hnb, ha, hb, not_true_eq_false, if_false]
  split <;> simp

/-! ## Lemmas on the streams -/

theorem static_cast_streamsize_le {x : Int} (h : -(2 ^ 63) ≤ x) :
    ¬ x < static_cast_streamsize x := by
  unfold static_cast_streamsize
  omega

theorem static_cast_uint32_of_le {x : Int} (h0 : 0 ≤ x) (h1 : x ≤ 4294967295) :
    static_cast_uint32 x = x.toNat := by
  unfold static_cast_uint32
  omega

theorem tellg_of_good (s : ifstream) (hg : s.good = true) :
    s.tellg = ((s.pos : Int), s) := by
  simp [ifstream.tellg, hg]

theorem tellg_of_not_good (s : ifstream) (hg : s.good = false) :
    s.tellg = (-1, { s with failbit := true }) := by
  simp [ifstream.tellg, hg]

theorem seekg_end_of_good (c : List Byte) (p : Nat) :
    (ifstream.mk c p false false false).seekg 0 seekdir.end_
      = ifstream.mk c c.length false false false := by
  have h : ¬ ((c.length : Int) + 0 < 0) := by omega
  simp only [ifstream.seekg, ifstream.good, Bool.not_false, Bool.and_self, if_true, h, if_false]
  congr 1

theorem seekg_beg_of_good (c : List Byte) (p q : Nat) :
    (ifstream.mk c p false false false).seekg (q : Int) seekdir.beg
      = ifstream.mk c q false false false := by
  have h : ¬ ((0 : Int) + (q : Int) < 0) := by omega
  simp only [ifstream.seekg, ifstream.good, Bool.not_false, Bool.and_self, if_true, h, if_false]
  congr 1
  omega

theorem seekg_of_failbit (c : List Byte) (p : Nat) (e b : Bool) (off : Int) (dir : seekdir) :
    (ifstream.mk c p e true b).seekg off dir = ifstream.mk c p false true b := by
  simp [ifstream.seekg, ifstream.good]

/-- On a stream that is good, `stream_size` runs its two checks on
`size = length - pos` and, when both pass, returns the cast of `size` and
leaves the stream as it was. -/
theorem stream_size_eq_of_good (s : ifstream) (hg : s.good = true) :
    stream_size s =
      if (s.content.length : Int) - (s.pos : Int)
          < static_cast_streamsize ((s.content.length : Int) - (s.pos : Int)) then
        Except.error EXIT_FAILURE
      else if (s.content.length : Int) - (s.pos : Int) > (uint32_max : Int) then
        Except.error EXIT_FAILURE
      else Except.ok (static_cast_uint32 ((s.content.length : Int) - (s.pos : Int)), s) := by
  rcases s with ⟨c, p, e, f, b⟩
  simp only [ifstream.good, Bool.and_eq_true, Bool.not_eq_true'] at hg
  obtain ⟨⟨rfl, rfl⟩, rfl⟩ := hg
  simp only [stream_size, tellg_of_good (ifstream.mk c p false false false) rfl,
    seekg_end_of_good, tellg_of_good (ifstream.mk c c.length false false false) rfl,
    seekg_beg_of_good]

/-- On a stream that is good and not past its end, `stream_size` exits when
the bytes left exceed `uint32_max` and returns their number otherwise. -/
theorem stream_size_of_good (s : ifstream) (hg : s.good = true)
    (hp : s.pos ≤ s.content.length) :
    stream_size s =
      if s.content.length - s.pos > uint32_max then Except.error EXIT_FAILURE
      else Except.ok (s.content.length - s.pos, s) := by
  rw [stream_size_eq_of_good s hg, if_neg (static_cast_streamsize_le (by omega))]
  simp only [uint32_max]
  by_cases hm : s.content.length - s.pos > 4294967295
  · rw [if_pos hm, if_pos (by omega)]
  · rw [if_neg hm, if_neg (by omega)]
    rw [static_cast_uint32_of_le (by omega) (by omega)]
    congr 2
    omega

/-- On a stream that is not good, both calls of `tellg` return `-1`, neither
`seekg` moves the read position, and `stream_size` returns `0`. -/
theorem stream_size_of_not_good (s : ifstream) (hg : s.good = false) :
    stream_size s = Except.ok (0, { s with eofbit := false, failbit := true }) := by
  rcases s with ⟨c, p, e, f, b⟩
  have h3 : ¬ ((-1 : Int) - -1 < static_cast_streamsize ((-1 : Int) - -1)) :=
    static_cast_streamsize_le (by omega)
  have hg' : (ifstream.mk c p false true b).good = false := by simp [ifstream.good]
  simp only [stream_size, tellg_of_not_good (ifstream.mk c p e f b) hg, seekg_of_failbit,
    tellg_of_not_good (ifstream.mk c p false true b) hg', h3, if_false, uint32_max]
  simp [static_cast_uint32]

/-! ## Lemmas on the output -/

theorem be_eq (n : Nat) :
    be n = [to_char ((n >>> 24) &&& 255), to_char ((n >>> 16) &&& 255),
      to_char ((n >>> 8) &&& 255), to_char ((n >>> 0) &&& 255)] := by
  rfl

theorem be_length (n : Nat) : (be n).length = 4 := by
  rw [be_eq]
  rfl

theorem to_char_and_val (x : Nat) : (to_char (x &&& 255)).val = x % 256 := by
  have h : x &&& 255 = x % 256 := Nat.and_pow_two_sub_one_eq_mod x 8
  simp only [to_char, h]
  omega

/-- The four bytes of `be n`, read most significant first, give `n` back. -/
theorem be_value (n : Nat) (h : n ≤ 4294967295) :
    (to_char ((n >>> 24) &&& 255)).val * 2 ^ 24 + (to_char ((n >>> 16) &&& 255)).val * 2 ^ 16
      + (to_char ((n >>> 8) &&& 255)).val * 2 ^ 8 + (to_char ((n >>> 0) &&& 255)).val = n := by
  simp only [to_char_and_val, Nat.shiftRight_eq_div_pow]
  omega

theorem writeBigEndian_bytes (out : ostream) (n : Nat) (hf : out.failbit = false) :
    (writeBigEndian out n).bytes = out.bytes ++ be n := by
  have h : (be n).take 4 = be n := List.take_of_length_le (by rw [be_length])
  simp [writeBigEndian, ostream.write, hf, h]

/-- What `main_body` leaves in the output file when `stream_size` returns: the
two payloads and the trailer, cut short at the first stream buffer that has
nothing left to read. -/
theorem main_body_output (png png' stl : ifstream) (out : ostream)
    (pathA pathB na nb : Str) (n : Nat)
    (hna : filename pathA = Except.ok na) (hnb : filename pathB = Except.ok nb)
    (hs : stream_size png = Except.ok (n, png')) (hf : out.failbit = false) :
    main_body png stl out pathA pathB =
      ⟨Termination.returned 0, some (out.bytes ++
        (if png'.remaining = [] then []
         else png'.remaining ++
          (if stl.remaining = [] then []
           else stl.remaining ++ na ++ nb ++ [static_cast_uint8 na.length]
             ++ [static_cast_uint8 nb.length] ++ be n)))⟩ := by
  obtain ⟨na', hna', hla⟩ := filename_total pathA
  obtain ⟨nb', hnb', hlb⟩ := filename_total pathB
  rw [hna] at hna'
  rw [hnb] at hnb'
  cases hna'
  cases hnb'
  have ha : na.length < 256 := by omega
  have hb : nb.length < 256 := by omega
  simp only [main_body, hna, hnb, ha, hb, hs, not_true_eq_false, if_false]
  congr 2
  by_cases h1 : png'.remaining = []
  · simp [ostream.insert_streambuf, ostream.insert_string, ostream.insert_uchar,
      writeBigEndian, ostream.write, hf, h1]
  · by_cases h2 : stl.remaining = []
    · simp [ostream.insert_streambuf, ostream.insert_string, ostream.insert_uchar,
        writeBigEndian, ostream.write, hf, h1, h2]
    · have h : (be n).take 4 = be n := List.take_of_length_le (by rw [be_length])
      simp [ostream.insert_streambuf, ostream.insert_string, ostream.insert_uchar,
        writeBigEndian, ostream.write, hf, h1, h2, h]

/-- What `main` leaves in the output file when it is given four arguments, the
three files open, the output is none of the two inputs and the first input has
at most `uint32_max` bytes. -/
theorem main_writes (prog pathA pathB pathOut : Str)
    (fs : Str → Option (List Byte)) (writable : Str → Bool) (a b : List Byte) (na nb : Str)
    (hlen : a.length ≤ 4294967295)
    (hA : fs pathA = some a) (hB : fs pathB = some b) (hW : writable pathOut = true)
    (hoA : pathOut ≠ pathA) (hoB : pathOut ≠ pathB)
    (hna : filename pathA = Except.ok na) (hnb : filename pathB = Except.ok nb) :
    main [prog, pathA, pathB, pathOut] fs writable =
      ⟨Termination.returned 0, some
        (if a = [] then []
         else a ++
          (if b = [] then []
           else b ++ na ++ nb ++ [static_cast_uint8 na.length]
             ++ [static_cast_uint8 nb.length] ++ be a.length))⟩ := by
  have hs : stream_size (ifstream.opened a) = Except.ok (a.length, ifstream.opened a) := by
    rw [stream_size_of_good (ifstream.opened a) rfl (Nat.zero_le _)]
    have h : ¬ (a.length - 0 > uint32_max) := by simp only [uint32_max]; omega
    exact if_neg h
  have hm := main_body_output (ifstream.opened a) (ifstream.opened a) (ifstream.opened b)
    ostream.opened pathA pathB na nb a.length hna hnb hs rfl
  have ra : (ifstream.opened a).remaining = a := rfl
  have rb : (ifstream.opened b).remaining = b := rfl
  have ob : ostream.opened.bytes = [] := rfl
  rw [ra, rb, ob, List.nil_append] at hm
  have h4 : ¬ ([prog, pathA, pathB, pathOut].length < 1) := by simp
  have ta : truncated_by pathOut pathA a = a := if_neg (Ne.symm hoA)
  have tb : truncated_by pathOut pathB b = b := if_neg (Ne.symm hoB)
  simp only [main, hA, hB, hW, h4, ta, tb, if_false, Bool.not_true, Bool.false_eq_true]
  exact hm

/-- When the output path is the path of the first input, opening the output
empties that input: `stream_size` returns 0, the first insertion copies
nothing and sets `failbit`, and `main` returns 0 with an empty output file. -/
theorem main_output_is_first_input (prog pathA pathB : Str)
    (fs : Str → Option (List Byte)) (writable : Str → Bool) (a b : List Byte)
    (hA : fs pathA = some a) (hB : fs pathB = some b) (hW : writable pathA = true) :
    main [prog, pathA, pathB, pathA] fs writable = ⟨Termination.returned 0, some []⟩ := by
  obtain ⟨na, hna, _⟩ := filename_total pathA
  obtain ⟨nb, hnb, _⟩ := filename_total pathB
  have hs : stream_size (ifstream.opened []) = Except.ok (0, ifstream.opened []) := by
    rw [stream_size_of_good (ifstream.opened []) rfl (Nat.zero_le _)]
    rfl
  have hm := main_body_output (ifstream.opened []) (ifstream.opened [])
    (ifstream.opened (truncated_by pathA pathB b)) ostream.opened pathA pathB na nb 0
    hna hnb hs rfl
  have ra : (ifstream.opened []).remaining = [] := rfl
  have ob : ostream.opened.bytes = [] := rfl
  rw [ra, ob, if_pos rfl, List.nil_append] at hm
  have h4 : ¬ ([prog, pathA, pathB, pathA].length < 1) := by simp
  have ta : truncated_by pathA pathA a = [] := if_pos rfl
  simp only [main, hA, hB, hW, h4, ta, if_false, Bool.not_true, Bool.false_eq_true]
  exact hm

/-- The reader recovers the four parts from the two payloads and the two
names followed by six bytes that hold the name lengths and the size. -/
theorem spec_decode_append (a b : List Byte) (na nb : Str) (la lb b0 b1 b2 b3 : Byte)
    (h1 : la.val = na.length) (h2 : lb.val = nb.length)
    (h3 : b0.val * 2 ^ 24 + b1.val * 2 ^ 16 + b2.val * 2 ^ 8 + b3.val = a.length) :
    spec_decode (a ++ b ++ na ++ nb ++ [la, lb, b0, b1, b2, b3]) = some (a, b, na, nb) := by
  have hlen : (a ++ b ++ na ++ nb ++ [la, lb, b0, b1, b2, b3]).length
      = a.length + b.length + na.length + nb.length + 6 := by
    simp only [List.length_append, List.length_cons, List.length_nil]
  have hdrop : (a ++ b ++ na ++ nb ++ [la, lb, b0, b1, b2, b3]).drop
      ((a ++ b ++ na ++ nb ++ [la, lb, b0, b1, b2, b3]).length - 6)
      = [la, lb, b0, b1, b2, b3] := by
    apply List.drop_left'
    rw [hlen]
    simp only [List.length_append]
    omega
  have hc : ¬ (a.length + na.length + nb.length + 6
      > a.length + b.length + na.length + nb.length + 6) := by omega
  have hB : a.length + b.length + na.length + nb.length + 6 - 6 - na.length - nb.length
      - a.length = b.length := by omega
  unfold spec_decode
  rw [hdrop]
  simp only [h1, h2, h3, hlen, hc, if_false, hB]
  have e1 : a ++ b ++ na ++ nb ++ [la, lb, b0, b1, b2, b3]
      = a ++ (b ++ (na ++ (nb ++ [la, lb, b0, b1, b2, b3]))) := by
    simp only [List.append_assoc]
  have t1 : (a ++ b ++ na ++ nb ++ [la, lb, b0, b1, b2, b3]).take a.length = a := by
    rw [e1]
    exact List.take_left' rfl
  have d1 : (a ++ b ++ na ++ nb ++ [la, lb, b0, b1, b2, b3]).drop a.length
      = b ++ (na ++ (nb ++ [la, lb, b0, b1, b2, b3])) := by
    rw [e1]
    exact List.drop_left' rfl
  have d2 : (a ++ b ++ na ++ nb ++ [la, lb, b0, b1, b2, b3]).drop (a.length + b.length)
      = na ++ (nb ++ [la, lb, b0, b1, b2, b3]) := by
    rw [show a ++ b ++ na ++ nb ++ [la, lb, b0, b1, b2, b3]
        = (a ++ b) ++ (na ++ (nb ++ [la, lb, b0, b1, b2, b3])) by simp only [List.append_assoc]]
    exact List.drop_left' (by simp only [List.length_append])
  have d3 : (a ++ b ++ na ++ nb ++ [la, lb, b0, b1, b2, b3]).drop
      (a.length + b.length + na.length) = nb ++ [la, lb, b0, b1, b2, b3] := by
    rw [show a ++ b ++ na ++ nb ++ [la, lb, b0, b1, b2, b3]
        = (a ++ b ++ na) ++ (nb ++ [la, lb, b0, b1, b2, b3]) by simp only [List.append_assoc]]
    exact List.drop_left' (by simp only [List.length_append])
  rw [t1, d1, d2, d3, List.take_left' rfl, List.take_left' rfl, List.take_left' rfl]

theorem spec_layout_eq (a b : List Byte) (na nb : Str) :
    spec_layout a b na nb = a ++ b ++ na ++ nb ++
      [static_cast_uint8 na.length, static_cast_uint8 nb.length,
       to_char ((a.length >>> 24) &&& 255), to_char ((a.length >>> 16) &&& 255),
       to_char ((a.length >>> 8) &&& 255), to_char ((a.length >>> 0) &&& 255)] := by
  simp only [spec_layout, be_eq, List.append_assoc, List.singleton_append, List.cons_append,
    List.nil_append]

theorem spec_decode_spec_layout (a b : List Byte) (na nb : Str)
    (hna : na.length ≤ 255) (hnb : nb.length ≤ 255) (ha : a.length ≤ 4294967295) :
    spec_decode (spec_layout a b na nb) = some (a, b, na, nb) := by
  rw [spec_layout_eq]
  exact spec_decode_append a b na nb _ _ _ _ _ _ (static_cast_uint8_val hna)
    (static_cast_uint8_val hnb) (be_value a.length ha)

/-! ## The output of `main` -/

/-- C2: the layout can be split back from its bytes alone.  The reader
`spec_decode` takes the name lengths and the size from the last six bytes and
the rest from the total length, and returns `(a, b, na, nb)` whenever the
names have at most 255 bytes and `a` at most `4294967295`; so the layout is
injective on that domain. -/
theorem spec_decode_layout (a b : List Byte) (na nb : Str)
    (hna : na.length ≤ 255) (hnb : nb.length ≤ 255) (ha : a.length ≤ 4294967295) :
    spec_decode (a ++ b ++ na ++ nb ++ [static_cast_uint8 na.length]
      ++ [static_cast_uint8 nb.length] ++ (writeBigEndian ostream.opened a.length).bytes)
      = some (a, b, na, nb) ∧
    ∀ (a' b' : List Byte) (na' nb' : Str),
      na'.length ≤ 255 → nb'.length ≤ 255 → a'.length ≤ 4294967295 →
      spec_layout a' b' na' nb' = spec_layout a b na nb →
      a' = a ∧ b' = b ∧ na' = na ∧ nb' = nb := by
  have hw : (writeBigEndian ostream.opened a.length).bytes = be a.length := by
    rw [writeBigEndian_bytes _ _ rfl]
    rfl
  constructor
  · rw [hw]
    exact spec_decode_spec_layout a b na nb hna hnb ha
  · intro a' b' na' nb' hna' hnb' ha' e
    have h := spec_decode_spec_layout a' b' na' nb' hna' hnb' ha'
    rw [e, spec_decode_spec_layout a b na nb hna hnb ha] at h
    simp only [Option.some.injEq, Prod.mk.injEq] at h
    exact ⟨h.1.symm, h.2.1.symm, h.2.2.1.symm, h.2.2.2.symm⟩

/-- C2 on the scenario of the specification: the 27 bytes are split back into
`41 42 43`, `53 54`, `"img.png"` and `"model.stl"`. -/
theorem spec_decode_layout_witness :
    spec_decode ([0x41, 0x42, 0x43] ++ [0x53, 0x54] ++ [105, 109, 103, 46, 112, 110, 103]
      ++ [109, 111, 100, 101, 108, 46, 115, 116, 108]
      ++ [static_cast_uint8 ([105, 109, 103, 46, 112, 110, 103] : Str).length]
      ++ [static_cast_uint8 ([109, 111, 100, 101, 108, 46, 115, 116, 108] : Str).length]
      ++ (writeBigEndian ostream.opened ([0x41, 0x42, 0x43] : List Byte).length).bytes)
      = some ([0x41, 0x42, 0x43], [0x53, 0x54], [105, 109, 103, 46, 112, 110, 103],
          [109, 111, 100, 101, 108, 46, 115, 116, 108]) :=
  (spec_decode_layout [0x41, 0x42, 0x43] [0x53, 0x54] [105, 109, 103, 46, 112, 110, 103]
    [109, 111, 100, 101, 108, 46, 115, 116, 108] (by decide) (by decide) (by decide)).1

/-- C3 fails on the code: with an empty first file `main` returns 0 and
leaves the output file empty (no payload, no name, no length or size field);
with an empty second file it writes the first payload and nothing more.  In
both runs the layout of the specification has more bytes. -/
theorem main_empty_payload :
    main [[112], [105, 109, 103, 46, 112, 110, 103],
        [109, 111, 100, 101, 108, 46, 115, 116, 108], [111]]
      (fun p => if p = [105, 109, 103, 46, 112, 110, 103] then some []
        else if p = [109, 111, 100, 101, 108, 46, 115, 116, 108] then some [0x53, 0x54]
        else none)
      (fun _ => true)
      = ⟨Termination.returned 0, some []⟩ ∧
    main [[112], [105, 109, 103, 46, 112, 110, 103],
        [109, 111, 100, 101, 108, 46, 115, 116, 108], [111]]
      (fun p => if p = [105, 109, 103, 46, 112, 110, 103] then some [0x41, 0x42, 0x43]
        else if p = [109, 111, 100, 101, 108, 46, 115, 116, 108] then some []
        else none)
      (fun _ => true)
      = ⟨Termination.returned 0, some [0x41, 0x42, 0x43]⟩ ∧
    spec_layout [] [0x53, 0x54] [105, 109, 103, 46, 112, 110, 103]
        [109, 111, 100, 101, 108, 46, 115, 116, 108]
      = [0x53, 0x54] ++ [105, 109, 103, 46, 112, 110, 103]
        ++ [109, 111, 100, 101, 108, 46, 115, 116, 108] ++ [0x07, 0x09]
        ++ [0x00, 0x00, 0x00, 0x00] ∧
    spec_layout [0x41, 0x42, 0x43] [] [105, 109, 103, 46, 112, 110, 103]
        [109, 111, 100, 101, 108, 46, 115, 116, 108]
      = [0x41, 0x42, 0x43] ++ [105, 109, 103, 46, 112, 110, 103]
        ++ [109, 111, 100, 101, 108, 46, 115, 116, 108] ++ [0x07, 0x09]
        ++ [0x00, 0x00, 0x00, 0x03] := by
  have ea : filename [105, 109, 103, 46, 112, 110, 103]
      = Except.ok [105, 109, 103, 46, 112, 110, 103] := rfl
  have eb : filename [109, 111, 100, 101, 108, 46, 115, 116, 108]
      = Except.ok [109, 111, 100, 101, 108, 46, 115, 116, 108] := rfl
  refine ⟨?_, ?_, by decide, by decide⟩
  · rw [main_writes [112] [105, 109, 103, 46, 112, 110, 103]
      [109, 111, 100, 101, 108, 46, 115, 116, 108] [111] _ _ [] [0x53, 0x54]
      [105, 109, 103, 46, 112, 110, 103] [109, 111, 100, 101, 108, 46, 115, 116, 108]
      (by decide) (by decide) (by decide) rfl (by decide) (by decide) ea eb]
    rfl
  · rw [main_writes [112] [105, 109, 103, 46, 112, 110, 103]
      [109, 111, 100, 101, 108, 46, 115, 116, 108] [111] _ _ [0x41, 0x42, 0x43] []
      [105, 109, 103, 46, 112, 110, 103] [109, 111, 100, 101, 108, 46, 115, 116, 108]
      (by decide) (by decide) (by decide) rfl (by decide) (by decide) ea eb]
    rfl

/-! ## `filename` -/

/-- C4: for a path `pre ++ "/" ++ name` where `name` has no `'/'` and at most
255 bytes, `filename` returns `name`, whatever `pre` is (it may contain `'/'`
or end in a backslash: there is no escape handling). -/
theorem filename_after_last_slash (pre name : Str)
    (hno : slash ∉ name) (hlen : name.length ≤ 255) :
    filename (pre ++ [slash] ++ name) = Except.ok name := by
  rw [filename_of_base (Or.inr ⟨pre, rfl, hno⟩), if_neg (by omega)]

/-- C4 at `"/home/a\/img.png"`: the prefix holds two separators and ends in a
backslash. -/
theorem filename_after_last_slash_witness :
    slash ∉ ([105, 109, 103, 46, 112, 110, 103] : Str) ∧
    ([105, 109, 103, 46, 112, 110, 103] : Str).length ≤ 255 ∧
    filename (([47, 104, 111, 109, 101, 47, 97, 92] : Str) ++ [slash]
        ++ [105, 109, 103, 46, 112, 110, 103])
      = Except.ok [105, 109, 103, 46, 112, 110, 103] :=
  ⟨by decide, by decide,
    filename_after_last_slash [47, 104, 111, 109, 101, 47, 97, 92]
      [105, 109, 103, 46, 112, 110, 103] (by decide) (by decide)⟩

/-- C5: a path with no `'/'` and at most 255 bytes is its own file name. -/
theorem filename_no_slash (p : Str) (hno : slash ∉ p) (hlen : p.length ≤ 255) :
    filename p = Except.ok p := by
  rw [filename_of_base (Or.inl ⟨hno, rfl⟩), if_neg (by omega)]

/-- C5 at `"img.png"`. -/
theorem filename_no_slash_witness :
    slash ∉ ([105, 109, 103, 46, 112, 110, 103] : Str) ∧
    filename [105, 109, 103, 46, 112, 110, 103]
      = Except.ok [105, 109, 103, 46, 112, 110, 103] :=
  ⟨by decide, filename_no_slash [105, 109, 103, 46, 112, 110, 103] (by decide) (by decide)⟩

/-- C6: when the base name of a path (the part after the last `'/'`, or the
whole path when there is none) has more than 255 bytes, `filename` returns its
last 255 bytes: the leading `name.length - 255` bytes are dropped. -/
theorem filename_truncates (path name : Str)
    (hbase : (slash ∉ path ∧ name = path) ∨
      (∃ pre, path = pre ++ [slash] ++ name ∧ slash ∉ name))
    (hlong : 255 < name.length) :
    filename path = Except.ok (name.drop (name.length - 255)) ∧
    (name.drop (name.length - 255)).length = 255 ∧
    name = name.take (name.length - 255) ++ name.drop (name.length - 255) := by
  refine ⟨?_, ?_, (List.take_append_drop _ _).symm⟩
  · rw [filename_of_base hbase, if_pos hlong]
  · simp only [List.length_drop]
    omega

/-- C6 at the path `"d/"` followed by `'x'` and 255 times `'a'`: the name has
256 bytes and its first byte is dropped. -/
theorem filename_truncates_witness :
    filename (([100] : Str) ++ [slash] ++ (120 :: List.replicate 255 97))
      = Except.ok (List.replicate 255 97) := by
  have hno : slash ∉ (120 :: List.replicate 255 97 : Str) := by
    intro m
    rcases List.mem_cons.mp m with e | e
    · exact absurd e (by decide)
    · exact absurd (List.eq_of_mem_replicate e) (by decide)
  have hlong : 255 < (120 :: List.replicate 255 97 : Str).length := by
    rw [List.length_cons, List.length_replicate]
    omega
  have h := (filename_truncates (([100] : Str) ++ [slash] ++ (120 :: List.replicate 255 97))
    (120 :: List.replicate 255 97) (Or.inr ⟨[100], rfl, hno⟩) hlong).1
  rw [List.length_cons, List.length_replicate] at h
  exact h

/-- C7: for every path `filename` returns a name of at most 255 bytes; so the
two assertions of `main` (`size() < 256u`) hold, the one-byte length field is
the true length of the name, and no run of `main` ends in an abort. -/
theorem filename_length_le :
    (∀ path : Str, ∃ name, filename path = Except.ok name ∧ name.length ≤ 255 ∧
      name.length < 256 ∧ (static_cast_uint8 name.length).val = name.length) ∧
    (∀ (argv : List Str) (fs : Str → Option (List Byte)) (writable : Str → Bool),
      (main argv fs writable).status ≠ Termination.aborted) := by
  constructor
  · intro path
    obtain ⟨name, h, hl⟩ := filename_total path
    exact ⟨name, h, hl, by omega, static_cast_uint8_val hl⟩
  · intro argv fs writable
    rcases argv with _ | ⟨a0, _ | ⟨png_file, _ | ⟨stl_file, _ | ⟨stl2png_file, _ | ⟨a4, rest⟩⟩⟩⟩⟩ <;>
      try (simp [main]; done)
    simp only [main]
    cases fs png_file <;> cases fs stl_file <;> cases writable stl2png_file <;>
      simp [main_body_status_ne_aborted]

/-! ## `stream_size` -/

/-- C8: when the position `frm` that `tellg` reports on entry and the end
position `to_` that it reports after `seekg(0, end)` satisfy
`0 ≤ to_ - frm ≤ 4294967295`, `stream_size` returns exactly `to_ - frm`
and does not exit; on a stream that is good this is the number of bytes left
to read. -/
theorem stream_size_exact (s : ifstream) (frm to_ : Int)
    (hfrom : s.tellg.1 = frm)
    (hto : (s.tellg.2.seekg 0 seekdir.end_).tellg.1 = to_)
    (h0 : 0 ≤ to_ - frm) (h1 : to_ - frm ≤ 4294967295) :
    (∃ s', stream_size s = Except.ok ((to_ - frm).toNat, s')) ∧
    (s.good = true → (to_ - frm).toNat = s.remaining.length) := by
  cases hg : s.good with
  | true =>
    rcases s with ⟨c, p, e, f, b⟩
    have hg' := hg
    simp only [ifstream.good, Bool.and_eq_true, Bool.not_eq_true'] at hg'
    obtain ⟨⟨rfl, rfl⟩, rfl⟩ := hg'
    simp only [tellg_of_good (ifstream.mk c p false false false) rfl] at hfrom
    simp only [tellg_of_good (ifstream.mk c p false false false) rfl, seekg_end_of_good,
      tellg_of_good (ifstream.mk c c.length false false false) rfl] at hto
    subst hfrom hto
    have hp : p ≤ c.length := by omega
    have hn : ((c.length : Int) - (p : Int)).toNat = c.length - p := by omega
    refine ⟨⟨ifstream.mk c p false false false, ?_⟩, ?_⟩
    · rw [stream_size_of_good _ hg hp, if_neg (by simp only [uint32_max]; omega), hn]
    · intro _
      simp only [ifstream.remaining, List.length_drop]
      exact hn
  | false =>
    rcases s with ⟨c, p, e, f, b⟩
    have hg' : (ifstream.mk c p false true b).good = false := by simp [ifstream.good]
    simp only [tellg_of_not_good (ifstream.mk c p e f b) hg] at hfrom
    simp only [tellg_of_not_good (ifstream.mk c p e f b) hg, seekg_of_failbit,
      tellg_of_not_good (ifstream.mk c p false true b) hg'] at hto
    subst hfrom hto
    refine ⟨⟨ifstream.mk c p false true b, ?_⟩, ?_⟩
    · rw [stream_size_of_not_good _ hg]
      rfl
    · intro h
      exact absurd h (by simp)

/-- C8 on a three-byte file read from position 1: `stream_size` returns 2. -/
theorem stream_size_exact_witness :
    ∃ s', stream_size (ifstream.mk [1, 2, 3] 1 false false false) = Except.ok (2, s') :=
  (stream_size_exact (ifstream.mk [1, 2, 3] 1 false false false) 1 3 rfl rfl
    (by decide) (by decide)).1

/-- C9: when `stream_size` returns, the stream it leaves has the read
position and the content it had before the call, so what is left to read, and
what `out << s.rdbuf()` copies, are the same as without the call. -/
theorem stream_size_nondestructive (s s' : ifstream) (n : Nat)
    (h : stream_size s = Except.ok (n, s')) :
    s'.pos = s.pos ∧ s'.content = s.content ∧ s'.remaining = s.remaining ∧
    ∀ out : ostream, (out.insert_streambuf s').1 = (out.insert_streambuf s).1 := by
  have key : s'.pos = s.pos ∧ s'.content = s.content := by
    cases hg : s.good with
    | true =>
      rw [stream_size_eq_of_good s hg] at h
      split at h
      · cases h
      · split at h
        · cases h
        · simp only [Except.ok.injEq, Prod.mk.injEq] at h
          rw [← h.2]
          exact ⟨rfl, rfl⟩
    | false =>
      rw [stream_size_of_not_good s hg] at h
      simp only [Except.ok.injEq, Prod.mk.injEq] at h
      rw [← h.2]
      exact ⟨rfl, rfl⟩
  have hr : s'.remaining = s.remaining := by
    simp only [ifstream.remaining, key.1, key.2]
  refine ⟨key.1, key.2, hr, ?_⟩
  intro out
  simp only [ostream.insert_streambuf, hr]
  split
  · rfl
  · split <;> rfl

/-- C9 on a three-byte file read from position 1: `stream_size` returns 2, the
position is 1 again after the call and the two bytes left are still there to
be copied to an output stream. -/
theorem stream_size_nondestructive_witness :
    stream_size (ifstream.mk [1, 2, 3] 1 false false false)
      = Except.ok (2, ifstream.mk [1, 2, 3] 1 false false false) ∧
    (ifstream.mk [1, 2, 3] 1 false false false).pos = 1 ∧
    (ifstream.mk [1, 2, 3] 1 false false false).remaining = [2, 3] ∧
    (ostream.opened.insert_streambuf (ifstream.mk [1, 2, 3] 1 false false false)).1.bytes
      = [2, 3] :=
  have hs : stream_size (ifstream.mk [1, 2, 3] 1 false false false)
      = Except.ok (2, ifstream.mk [1, 2, 3] 1 false false false) := by
    rw [stream_size_of_good (ifstream.mk [1, 2, 3] 1 false false false) rfl (by decide)]
    rfl
  have h := stream_size_nondestructive (ifstream.mk [1, 2, 3] 1 false false false)
    (ifstream.mk [1, 2, 3] 1 false false false) 2 hs
  ⟨hs, h.1, h.2.2.1, congrArg ostream.bytes (h.2.2.2 ostream.opened)⟩

/-- C10: when the distance `to_ - frm` computed from the two positions that
`tellg` reports is greater than `4294967295`, `stream_size` does not return:
it exits with `EXIT_FAILURE`. -/
theorem stream_size_overflow (s : ifstream) (frm to_ : Int)
    (hfrom : s.tellg.1 = frm)
    (hto : (s.tellg.2.seekg 0 seekdir.end_).tellg.1 = to_)
    (h : to_ - frm > 4294967295) :
    stream_size s = Except.error EXIT_FAILURE := by
  cases hg : s.good with
  | true =>
    rcases s with ⟨c, p, e, f, b⟩
    have hg' := hg
    simp only [ifstream.good, Bool.and_eq_true, Bool.not_eq_true'] at hg'
    obtain ⟨⟨rfl, rfl⟩, rfl⟩ := hg'
    simp only [tellg_of_good (ifstream.mk c p false false false) rfl] at hfrom
    simp only [tellg_of_good (ifstream.mk c p false false false) rfl, seekg_end_of_good,
      tellg_of_good (ifstream.mk c c.length false false false) rfl] at hto
    subst hfrom hto
    rw [stream_size_of_good _ hg (show p ≤ c.length by omega),
      if_pos (by simp only [uint32_max]; omega)]
  | false =>
    rcases s with ⟨c, p, e, f, b⟩
    have hg' : (ifstream.mk c p false true b).good = false := by simp [ifstream.good]
    simp only [tellg_of_not_good (ifstream.mk c p e f b) hg] at hfrom
    simp only [tellg_of_not_good (ifstream.mk c p e f b) hg, seekg_of_failbit,
      tellg_of_not_good (ifstream.mk c p false true b) hg'] at hto
    subst hfrom hto
    omega

/-- C10 on a file of `4294967296` bytes read from its start. -/
theorem stream_size_overflow_witness :
    stream_size (ifstream.mk (List.replicate 4294967296 0) 0 false false false)
      = Except.error EXIT_FAILURE := by
  have hto : ((ifstream.mk (List.replicate 4294967296 0) 0 false false false).tellg.2.seekg
      0 seekdir.end_).tellg.1 = 4294967296 := by
    simp only [tellg_of_good (ifstream.mk (List.replicate 4294967296 0) 0 false false false) rfl,
      seekg_end_of_good,
      tellg_of_good (ifstream.mk (List.replicate 4294967296 0)
        (List.replicate 4294967296 (0 : Byte)).length false false false) rfl,
      List.length_replicate]
    rfl
  exact stream_size_overflow (ifstream.mk (List.replicate 4294967296 0) 0 false false false)
    0 4294967296 rfl hto (by decide)

/-- On a stream that is good and whose read position is past the end of the
file, the distance is negative and `stream_size` still returns: the check on
line 47 compares `size` with its own cast and does not fire. -/
theorem stream_size_of_negative (s : ifstream) (hg : s.good = true)
    (hp : s.content.length < s.pos) (hb : s.pos ≤ 2 ^ 63) :
    stream_size s = Except.ok
      (static_cast_uint32 ((s.content.length : Int) - (s.pos : Int)), s) := by
  have h1 : ¬ ((s.content.length : Int) - (s.pos : Int)
      < static_cast_streamsize ((s.content.length : Int) - (s.pos : Int))) :=
    static_cast_streamsize_le (by omega)
  have h2 : ¬ ((s.content.length : Int) - (s.pos : Int) > (uint32_max : Int)) := by
    simp only [uint32_max]
    omega
  rw [stream_size_eq_of_good s hg, if_neg h1, if_neg h2]

/-- C11 fails on the code: on a three-byte file whose read position is 5 (two
bytes past the end) `tellg` reports `from = 5` and `to = 3`, the distance is
`-2`, and `stream_size` does not exit: it returns `4294967294`, the cast of
`-2` to `uint32_t`, and puts the read position back to 5. -/
theorem stream_size_negative_returns :
    (ifstream.mk [1, 2, 3] 5 false false false).tellg.1 = 5 ∧
    (((ifstream.mk [1, 2, 3] 5 false false false).tellg.2.seekg 0 seekdir.end_).tellg.1 = 3) ∧
    stream_size (ifstream.mk [1, 2, 3] 5 false false false)
      = Except.ok (4294967294, ifstream.mk [1, 2, 3] 5 false false false) := by
  refine ⟨rfl, rfl, ?_⟩
  rw [stream_size_of_negative (ifstream.mk [1, 2, 3] 5 false false false) rfl
    (by decide) (by decide)]
  rfl

/-! ## Failure of the size check in `main` -/

/-- The byte that `writeBigEndian` stores for the shift `k` is the low byte of
`n >>> k`. -/
theorem to_char_shift_val (n k : Nat) :
    (to_char ((n >>> k) &&& 0xFF)).val = (n >>> k) &&& 0xFF := by
  have h : (n >>> k) &&& 0xFF = (n >>> k) % 256 := Nat.and_pow_two_sub_one_eq_mod _ 8
  rw [h]
  simp only [to_char]
  omega

/-- C13: on a sink that accepts the write (`failbit` clear), `writeBigEndian`
appends exactly four bytes, the byte at index `i` of the four (`0 ≤ i ≤ 3`) is
`(n >> (8*(3-i))) & 0xFF`, and the bytes that were in the sink are unchanged. -/
theorem writeBigEndian_appends (out : ostream) (n : Nat) (hf : out.failbit = false) :
    (writeBigEndian out n).bytes.length = out.bytes.length + 4 ∧
    (writeBigEndian out n).bytes.take out.bytes.length = out.bytes ∧
    ∀ i, i ≤ 3 →
      ((writeBigEndian out n).bytes[out.bytes.length + i]?).map Fin.val
        = some ((n >>> (8 * (3 - i))) &&& 0xFF) := by
  rw [writeBigEndian_bytes out n hf]
  refine ⟨?_, List.take_left' rfl, ?_⟩
  · rw [List.length_append, be_length]
  · intro i hi
    rw [List.getElem?_append_right (Nat.le_add_right _ _), Nat.add_sub_cancel_left, be_eq]
    interval_cases i
    · exact congrArg some (to_char_shift_val n 24)
    · exact congrArg some (to_char_shift_val n 16)
    · exact congrArg some (to_char_shift_val n 8)
    · exact congrArg some (to_char_shift_val n 0)

/-- C13 on the three values of the specification: `0x01020304` gives
`01 02 03 04`, `0` gives `00 00 00 00` and `0xFFFFFFFF` gives `FF FF FF FF`;
written after the bytes `41 42`, the four bytes follow them. -/
theorem writeBigEndian_appends_witness :
    (writeBigEndian ostream.opened 0x01020304).bytes = [0x01, 0x02, 0x03, 0x04] ∧
    (writeBigEndian ostream.opened 0).bytes = [0x00, 0x00, 0x00, 0x00] ∧
    (writeBigEndian ostream.opened 0xFFFFFFFF).bytes = [0xFF, 0xFF, 0xFF, 0xFF] ∧
    (writeBigEndian (ostream.mk [0x41, 0x42] false) 0x01020304).bytes.length = 2 + 4 ∧
    (writeBigEndian (ostream.mk [0x41, 0x42] false) 0x01020304).bytes.take 2
      = [0x41, 0x42] :=
  have h := writeBigEndian_appends (ostream.mk [0x41, 0x42] false) 0x01020304 rfl
  ⟨rfl, rfl, rfl, h.1, h.2.1⟩

/-- C15: for `n ≤ 4294967295` the four bytes `b0 b1 b2 b3` that
`writeBigEndian` emits satisfy `b0*2^24 + b1*2^16 + b2*2^8 + b3 = n`; the
first byte is the most significant one (`n / 2^24`), and two values with the
same four bytes are equal. -/
theorem writeBigEndian_reconstructs (n : Nat) (hn : n ≤ 4294967295) :
    (∃ b0 b1 b2 b3 : Byte,
      (writeBigEndian ostream.opened n).bytes = [b0, b1, b2, b3] ∧
      b0.val * 2 ^ 24 + b1.val * 2 ^ 16 + b2.val * 2 ^ 8 + b3.val = n ∧
      b0.val = n / 2 ^ 24) ∧
    ∀ m, m ≤ 4294967295 →
      (writeBigEndian ostream.opened m).bytes = (writeBigEndian ostream.opened n).bytes →
      m = n := by
  have hw : ∀ k, (writeBigEndian ostream.opened k).bytes
      = [to_char ((k >>> 24) &&& 255), to_char ((k >>> 16) &&& 255),
         to_char ((k >>> 8) &&& 255), to_char ((k >>> 0) &&& 255)] := by
    intro k
    rw [writeBigEndian_bytes _ _ rfl, be_eq]
    rfl
  constructor
  · refine ⟨_, _, _, _, hw n, be_value n hn, ?_⟩
    rw [to_char_and_val, Nat.shiftRight_eq_div_pow]
    omega
  · intro m hm e
    rw [hw m, hw n] at e
    simp only [List.cons.injEq, and_true] at e
    obtain ⟨e0, e1, e2, e3⟩ := e
    have vm := be_value m hm
    have vn := be_value n hn
    rw [e0, e1, e2, e3] at vm
    exact vm.symm.trans vn

/-- C15 at `n = 0x01020304`: the bytes are `01 02 03 04` and
`1*2^24 + 2*2^16 + 3*2^8 + 4 = 0x01020304`. -/
theorem writeBigEndian_reconstructs_witness :
    ∃ b0 b1 b2 b3 : Byte,
      (writeBigEndian ostream.opened 0x01020304).bytes = [b0, b1, b2, b3] ∧
      b0.val * 2 ^ 24 + b1.val * 2 ^ 16 + b2.val * 2 ^ 8 + b3.val = 0x01020304 ∧
      b0.val = 0x01020304 / 2 ^ 24 :=
  (writeBigEndian_reconstructs 0x01020304 (by decide)).1

/-! ## More on `filename` -/

/-- C14: for a path that ends in `'/'`, the path `"/"` included, and for the
empty path, `filename` returns the empty string and throws nothing. -/
theorem filename_trailing_slash :
    (∀ pre : Str, filename (pre ++ [slash]) = Except.ok []) ∧
    filename [slash] = Except.ok [] ∧
    filename [] = Except.ok [] := by
  have h : ∀ pre : Str, filename (pre ++ [slash]) = Except.ok [] := by
    intro pre
    have hb : filename (pre ++ [slash]) = Except.ok
        (if ([] : Str).length > 255 then ([] : Str).drop (([] : Str).length - 255) else []) :=
      filename_of_base (Or.inr ⟨pre, by simp, by simp⟩)
    exact hb
  exact ⟨h, h [], rfl⟩

/-- C16: for every path `filename` returns a name with no `'/'` in it, whether
or not the name was cut down to 255 bytes. -/
theorem filename_no_separator (path : Str) :
    ∃ name, filename path = Except.ok name ∧ slash ∉ name := by
  obtain ⟨base, hb⟩ := exists_base path
  have hno : slash ∉ base := by
    rcases hb with ⟨h, e⟩ | ⟨_, _, h⟩
    · rw [e]
      exact h
    · exact h
  refine ⟨_, filename_of_base hb, ?_⟩
  split
  · exact fun m => hno (List.mem_of_mem_drop m)
  · exact hno

/-- C17: for every path `p`, `filename p` returns a name that is a suffix of
`p`, and `filename` applied to that name returns it again. -/
theorem filename_idempotent (p : Str) :
    ∃ name, filename p = Except.ok name ∧ filename name = Except.ok name ∧
      List.IsSuffix name p := by
  obtain ⟨base, hb⟩ := exists_base p
  have hno : slash ∉ base := by
    rcases hb with ⟨h, e⟩ | ⟨_, _, h⟩
    · rw [e]
      exact h
    · exact h
  have hsuf : List.IsSuffix base p := by
    rcases hb with ⟨_, e⟩ | ⟨pre, e, _⟩
    · exact e.symm ▸ List.suffix_refl p
    · rw [e]
      exact List.suffix_append (pre ++ [slash]) base
  have key : ∀ name : Str, slash ∉ name → name.length ≤ 255 →
      filename name = Except.ok name := by
    intro name h1 h2
    rw [filename_of_base (Or.inl ⟨h1, rfl⟩), if_neg (by omega)]
  refine ⟨_, filename_of_base hb, ?_, ?_⟩
  · split
    · apply key
      · exact fun m => hno (List.mem_of_mem_drop m)
      · simp only [List.length_drop]
        omega
    · apply key _ hno
      omega
  · split
    · exact (List.drop_suffix _ base).trans hsuf
    · exact hsuf

end Stl2Img
